import Mathlib

/-!
Shallow embedding of the CHIP-8 interpreter core (`chip/src/lib.rs`) and
verification of its specification.

Machine integers are modelled as `Nat`, reduced with an explicit `% 2 ^ w`
exactly where the Rust code wraps.  Rust operations that can abort at run
time (out-of-range indexing, `%` by zero, checked-arithmetic overflow in a
loader bound computation) are modelled in `Except RunError`, where
`RunError.rtPanic` stands for a Rust panic and `RunError.exc e` for the
interpreter's own `Err(e)` return value.  Fixed-size arrays (`[u8; 4096]`,
`[u8; 16]`, `[u16; 16]`, `[bool; 16]`, `[bool; 2048]`) are modelled as
lists whose length is the array size; accesses whose index is structurally
in bounds in the Rust code use `List.getD` / `List.set`, accesses that can
be out of range in Rust use `List.get?` and report `rtPanic` on `none`.
-/

set_option maxHeartbeats 4000000
set_option maxRecDepth 100000

namespace Chip8

/-- Decidable equality of `Except` results, so concrete runs of the
interpreter can be settled by `decide`. -/
instance {ε α : Type} [DecidableEq ε] [DecidableEq α] : DecidableEq (Except ε α) := fun x y =>
  match x, y with
  | .ok a, .ok b => if h : a = b then .isTrue (by rw [h]) else .isFalse (by simp [h])
  | .error a, .error b => if h : a = b then .isTrue (by rw [h]) else .isFalse (by simp [h])
  | .ok _, .error _ => .isFalse (by simp)
  | .error _, .ok _ => .isFalse (by simp)

/-- Program entry address (`ENTRY_ADDR = 512`). -/
def ENTRY_ADDR : Nat := 512

/-- Display width in pixels (`DISP_WIDTH = 64`). -/
def DISP_WIDTH : Nat := 64

/-- Display height in pixels (`DISP_HEIGHT = 32`). -/
def DISP_HEIGHT : Nat := 32

/-- Memory size in bytes (`MEM_SIZE = 4096`). -/
def MEM_SIZE : Nat := 4096

/-- Stack depth (`STACK_SIZE = 16`). -/
def STACK_SIZE : Nat := 16

/-- Number of registers (`REG_NUM = 16`). -/
def REG_NUM : Nat := 16

/-- Size of the font table (`CHARS_SIZE = 5 * 16`). -/
def CHARS_SIZE : Nat := 5 * 16

/-- Built-in font table `CHARS`: 16 glyphs of 5 bytes each. -/
def CHARS : List Nat := [
  0xF0, 0x90, 0x90, 0x90, 0xF0,
  0x20, 0x60, 0x20, 0x20, 0x70,
  0xF0, 0x10, 0xF0, 0x80, 0xF0,
  0xF0, 0x10, 0xF0, 0x10, 0xF0,
  0x90, 0x90, 0xF0, 0x10, 0x10,
  0xF0, 0x80, 0xF0, 0x10, 0xF0,
  0xF0, 0x80, 0xF0, 0x90, 0xF0,
  0xF0, 0x10, 0x20, 0x40, 0x40,
  0xF0, 0x90, 0xF0, 0x90, 0xF0,
  0xF0, 0x90, 0xF0, 0x10, 0xF0,
  0xF0, 0x90, 0xF0, 0x90, 0x90,
  0xE0, 0x90, 0xE0, 0x90, 0xE0,
  0xF0, 0x80, 0x80, 0x80, 0xF0,
  0xE0, 0x90, 0x90, 0x90, 0xE0,
  0xF0, 0x80, 0xF0, 0x80, 0xF0,
  0xF0, 0x80, 0xF0, 0x80, 0x80]

/-- The interpreter's error enum `Exception`. -/
inductive Exception where
  | OutOfMemory (a : Nat)
  | StackOverflow (s : Nat)
  | StackUnderflow (s : Nat)
  | IllegalOpcode (op : Nat)
  | IllegalAddress (a : Nat)
  | Halt (code : Int)
deriving DecidableEq, Repr

/-- Outcome of running a fallible interpreter operation: either the
interpreter's own `Err(Exception)` return, or a Rust runtime panic
(out-of-range index, remainder by zero, checked-arithmetic overflow). -/
inductive RunError where
  | exc (e : Exception)
  | rtPanic
deriving DecidableEq, Repr

/-- Model of the external `rand::rngs::SmallRng` pseudo-random generator used
by the machine.  The generator is deterministic in its seed; its concrete
output algorithm lives in the external `rand` crate (not in this repository),
so the state is modelled as a 64-bit word advanced by a fixed splitmix64-style
mixing function standing in for the crate's generator.  No verified property
depends on the particular byte values produced, only on determinism: equal
states yield equal byte sequences. -/
structure RngState where
  s : Nat
deriving DecidableEq, Repr

/-- Model of `SmallRng::seed_from_u64`. -/
def RngState.seedFromU64 (seed : Nat) : RngState := ⟨seed % 2 ^ 64⟩

/-- Model of drawing one byte (`rng.gen::<u8>()`): returns the byte and the
advanced generator state (splitmix64-style stand-in, see `RngState`). -/
def RngState.genByte (r : RngState) : Nat × RngState :=
  let s1 := (r.s + 0x9E3779B97F4A7C15) % 2 ^ 64
  let z1 := ((s1 ^^^ (s1 >>> 30)) * 0xBF58476D1CE4E5B9) % 2 ^ 64
  let z2 := ((z1 ^^^ (z1 >>> 27)) * 0x94D049BB133111EB) % 2 ^ 64
  ((z2 ^^^ (z2 >>> 31)) % 256, ⟨s1⟩)

/-- The machine state `Chip`. -/
structure Chip where
  mem : List Nat
  v : List Nat
  i : Nat
  pc : Nat
  stack : List Nat
  sp : Nat
  dt : Nat
  st : Nat
  keypad : List Bool
  fb : List Bool
  rng : RngState
deriving DecidableEq, Repr

/-- Model of `slice[offset..offset + bin.len()].copy_from_slice(bin)`:
overwrite successive positions starting at `offset` with the bytes of
`bin` (bounds are checked by the callers, as in the Rust code). -/
def writeRange (mem : List Nat) (offset : Nat) : List Nat → List Nat
  | [] => mem
  | b :: rest => writeRange (mem.set offset b) (offset + 1) rest

/-- `Chip::new(seed)`: font preloaded at address 0, everything else zeroed,
`pc = ENTRY_ADDR`, random source seeded. -/
def Chip.new (seed : Nat) : Chip :=
  { mem := CHARS ++ List.replicate (MEM_SIZE - CHARS_SIZE) 0
    v := List.replicate REG_NUM 0
    i := 0
    pc := ENTRY_ADDR
    stack := List.replicate STACK_SIZE 0
    sp := 0
    dt := 0
    st := 0
    keypad := List.replicate 16 false
    fb := List.replicate (DISP_WIDTH * DISP_HEIGHT) false
    rng := RngState.seedFromU64 seed }

/-- `set_keypad`: indices at least 16 are silently ignored. -/
def Chip.set_keypad (c : Chip) (key : Nat) (pressed : Bool) : Chip :=
  if key < 16 then { c with keypad := c.keypad.set key pressed } else c

/-- `load_rom(offset, bin)`.  The Rust guard computes
`MEM_SIZE - offset as usize` in `usize` arithmetic: when `offset > MEM_SIZE`
that subtraction underflows (panic in a debug build; in a release build it
wraps, the oversized guard then passes, and the slice
`mem[offset..offset + bin.len()]` panics instead), so the model reports a
panic for every `offset > MEM_SIZE`. -/
def Chip.load_rom (c : Chip) (offset : Nat) (bin : List Nat) : Except RunError Chip :=
  if offset > MEM_SIZE then .error .rtPanic
  else if bin.length > MEM_SIZE - offset then
    .error (.exc (.OutOfMemory (bin.length % 2 ^ 16)))
  else .ok { c with mem := writeRange c.mem offset bin }

/-- `framebuffer()`: read-only view of the framebuffer. -/
def Chip.framebuffer (c : Chip) : List Bool := c.fb

/-- `tone()`: true while the sound timer is nonzero. -/
def Chip.tone (c : Chip) : Bool := c.st != 0

/-- `reset(seed)`: zero every field (`fill` on the arrays), restore
`pc = ENTRY_ADDR`, re-seed the random source.  Note the Rust code fills the
whole memory with `0` and does not re-copy the font table. -/
def Chip.reset (c : Chip) (seed : Nat) : Chip :=
  { c with
    pc := ENTRY_ADDR
    sp := 0
    i := 0
    dt := 0
    st := 0
    keypad := c.keypad.map (fun _ => false)
    fb := c.fb.map (fun _ => false)
    v := c.v.map (fun _ => 0)
    mem := c.mem.map (fun _ => 0)
    stack := c.stack.map (fun _ => 0)
    rng := RngState.seedFromU64 seed }

/-- `disp_clr`: clear the framebuffer (`fb.fill(false)`). -/
def Chip.disp_clr (c : Chip) : Chip :=
  { c with fb := c.fb.map (fun _ => false) }

/-- `ret`: `StackUnderflow` on an empty stack, else pop one return address
into `pc`.  The read `stack[sp - 1]` uses a checked access: the Rust code
indexes the 16-slot array directly and would panic were `sp - 1` out of
range. -/
def Chip.ret (c : Chip) : Except RunError Chip :=
  if c.sp = 0 then .error (.exc (.StackUnderflow c.sp))
  else
    match c.stack.get? (c.sp - 1) with
    | some a => .ok { c with sp := c.sp - 1, pc := a }
    | none => .error .rtPanic

/-- `jump(addr)`: defensive `IllegalAddress` check, then set `pc`. -/
def Chip.jump (c : Chip) (addr : Nat) : Except RunError Chip :=
  if addr > 0xFFF then .error (.exc (.IllegalAddress addr))
  else .ok { c with pc := addr }

/-- `call(addr)`: `StackOverflow` when the stack is full, else push `pc`,
then check the target address and jump. -/
def Chip.call (c : Chip) (addr : Nat) : Except RunError Chip :=
  if c.sp ≥ STACK_SIZE then .error (.exc (.StackOverflow c.sp))
  else
    let c1 : Chip := { c with stack := c.stack.set c.sp c.pc, sp := c.sp + 1 }
    if addr > 0xFFF then .error (.exc (.IllegalAddress addr))
    else .ok { c1 with pc := addr }

/-- `skip_if_eq(a, b)`: skip the next instruction when `a = b`.  The `u16`
addition `pc + 2` cannot overflow at any call site reached from `tick`
(there `pc ≤ 4097`), so it is modelled as plain addition. -/
def Chip.skip_if_eq (c : Chip) (a b : Nat) : Chip :=
  if a = b then { c with pc := c.pc + 2 } else c

/-- `skip_if_ne(a, b)`: skip the next instruction when `a ≠ b`. -/
def Chip.skip_if_ne (c : Chip) (a b : Nat) : Chip :=
  if a ≠ b then { c with pc := c.pc + 2 } else c

/-- `load_reg(x, val)`: write register `x` (always called with `x < 16`,
a nibble of the opcode, so the access is in bounds in the Rust code). -/
def Chip.load_reg (c : Chip) (x : Nat) (val : Nat) : Chip :=
  { c with v := c.v.set x val }

/-- `load_i(val)`: write the index register. -/
def Chip.load_i (c : Chip) (val : Nat) : Chip :=
  { c with i := val }

/-- Inner loop of `draw_sprite` over the bit positions `js` of one sprite
byte: each set bit XORs the framebuffer pixel at column `(xv + j) % 64` of
row `yrow`, accumulating the collision flag from the pixel's prior value.
The pixel index is structurally below `64 * 32`. -/
def drawBits (sprite xv yrow : Nat) : List Nat → List Bool → Bool → List Bool × Bool
  | [], fb, flipped => (fb, flipped)
  | j :: rest, fb, flipped =>
    if sprite &&& (0x80 >>> j) ≠ 0 then
      let idx := (xv + j) % DISP_WIDTH + yrow * DISP_WIDTH
      drawBits sprite xv yrow rest (fb.set idx (! fb.getD idx false)) (flipped || fb.getD idx false)
    else
      drawBits sprite xv yrow rest fb flipped

/-- Outer loop of `draw_sprite` over the sprite rows `rs`: row `r` reads the
sprite byte `mem[i + r]` (a checked access: the Rust code indexes memory
directly and panics when `i + r` is out of range). -/
def drawRows (mem : List Nat) (iReg xv yv : Nat) :
    List Nat → List Bool → Bool → Except RunError (List Bool × Bool)
  | [], fb, flipped => .ok (fb, flipped)
  | r :: rest, fb, flipped =>
    match mem.get? (iReg + r) with
    | none => .error .rtPanic
    | some sprite =>
      let p := drawBits sprite xv ((yv + r) % DISP_HEIGHT) (List.range 8) fb flipped
      drawRows mem iReg xv yv rest p.1 p.2

/-- `draw_sprite(x, y, n)`: XOR the `n`-row sprite at `mem[i..]` into the
framebuffer at the wrapped coordinates given by registers `x` and `y`, then
set register 0xF to the collision flag. -/
def Chip.draw_sprite (c : Chip) (x y n : Nat) : Except RunError Chip := do
  let xv := c.v.getD x 0
  let yv := c.v.getD y 0
  let p ← drawRows c.mem c.i xv yv (List.range n) c.fb false
  .ok { c with fb := p.1, v := c.v.set 0xF (if p.2 then 1 else 0) }

/-- `wait_for_key(x)`: find an entry of `keypad.iter().enumerate()` whose
index equals the value of register `x` and whose key is pressed; if one
exists, skip the next instruction. -/
def Chip.wait_for_key (c : Chip) (x : Nat) : Chip :=
  match c.keypad.enum.find? (fun q => c.v.getD x 0 == q.1 && q.2) with
  | some _ => { c with pc := c.pc + 2 }
  | none => c

/-- `store_reg_bcd(x)`: write the decimal digits of register `x` to
`mem[i..i + 3]` (the Rust slice copy panics when `i + 3 > 4096`). -/
def Chip.store_reg_bcd (c : Chip) (x : Nat) : Except RunError Chip :=
  let num := c.v.getD x 0
  let bcd := [num / 100, num % 100 / 10, num % 100 % 10]
  if c.i + 3 > c.mem.length then .error .rtPanic
  else .ok { c with mem := writeRange c.mem c.i bcd }

/-- Loop of `store_regs`: for each register index in `rs` (in order), write
it to the running offset if the offset is still inside memory, else fail
with `IllegalAddress`. -/
def storeRegsLoop (v : List Nat) : List Nat → List Nat → Nat → Except RunError (List Nat)
  | mem, [], _ => .ok mem
  | mem, r :: rest, offset =>
    if offset < MEM_SIZE then
      storeRegsLoop v (mem.set offset (v.getD r 0)) rest (offset + 1)
    else .error (.exc (.IllegalAddress offset))

/-- `store_regs(x)`: store registers `0..x` (note: `for i in 0..x` in the
Rust code, which excludes `x` itself) to memory starting at the index
register. -/
def Chip.store_regs (c : Chip) (x : Nat) : Except RunError Chip := do
  let mem ← storeRegsLoop c.v c.mem (List.range x) c.i
  .ok { c with mem := mem }

/-- Loop of `load_regs`: for each register index in `rs` (in order), load it
from the running offset if the offset is still inside memory, else fail with
`IllegalAddress`. -/
def loadRegsLoop (mem : List Nat) : List Nat → List Nat → Nat → Except RunError (List Nat)
  | v, [], _ => .ok v
  | v, r :: rest, offset =>
    if offset < MEM_SIZE then
      loadRegsLoop mem (v.set r (mem.getD offset 0)) rest (offset + 1)
    else .error (.exc (.IllegalAddress offset))

/-- `load_regs(x)`: load registers `0..x` (exclusive, `for i in 0..x`) from
memory starting at the index register. -/
def Chip.load_regs (c : Chip) (x : Nat) : Except RunError Chip := do
  let v ← loadRegsLoop c.mem c.v (List.range x) c.i
  .ok { c with v := v }

/-- `execute(opcode)`: decode the 16-bit word and dispatch.  The nested Rust
`match` on the top nibble and the sub-fields is rendered as a cascade of
equality tests (a Rust integer `match` tries its arms in order, which is
exactly this cascade). -/
def Chip.execute (c : Chip) (opcode : Nat) : Except RunError Chip :=
  let d := (opcode &&& 0xF000) >>> 12
  let x := (opcode &&& 0x0F00) >>> 8
  let y := (opcode &&& 0x00F0) >>> 4
  let n := opcode &&& 0x000F
  let nn := opcode &&& 0x00FF
  let nnn := opcode &&& 0x0FFF
  let vx := c.v.getD x 0
  let vy := c.v.getD y 0
  if d = 0 then
    if nn = 0 then .ok c
    else if nn = 0xE0 then .ok c.disp_clr
    else if nn = 0xEE then c.ret
    else .error (.exc (.IllegalOpcode opcode))
  else if d = 1 then c.jump nnn
  else if d = 2 then c.call nnn
  else if d = 3 then .ok (c.skip_if_eq vx nn)
  else if d = 4 then .ok (c.skip_if_ne vx nn)
  else if d = 5 then .ok (c.skip_if_eq vx vy)
  else if d = 6 then .ok (c.load_reg x nn)
  else if d = 7 then .ok (c.load_reg x ((vx + nn) % 256))
  else if d = 8 then
    if n = 0 then .ok (c.load_reg x vy)
    else if n = 1 then .ok (c.load_reg x (vx ||| vy))
    else if n = 2 then .ok (c.load_reg x (vx &&& vy))
    else if n = 3 then .ok (c.load_reg x (vx ^^^ vy))
    else if n = 4 then
      .ok ((c.load_reg x ((vx + vy) % 256)).load_reg 0xF (if 256 ≤ vx + vy then 1 else 0))
    else if n = 5 then
      .ok ((c.load_reg x ((256 + vx - vy) % 256)).load_reg 0xF (if vx < vy then 0 else 1))
    else if n = 6 then
      .ok ((c.load_reg 0xF (vx &&& 0x01)).load_reg x (vx >>> 1))
    else if n = 7 then
      .ok ((c.load_reg x ((256 + vy - vx) % 256)).load_reg 0xF (if vy < vx then 0 else 1))
    else if n = 0xE then
      .ok ((c.load_reg 0xF (if vx &&& 0x80 = 0 then 0 else 1)).load_reg x ((vx <<< 1) % 256))
    else .error (.exc (.IllegalOpcode opcode))
  else if d = 9 then .ok (c.skip_if_ne vx vy)
  else if d = 0xA then .ok (c.load_i nnn)
  else if d = 0xB then c.jump (c.v.getD 0 0 + nnn)
  else if d = 0xC then
    let p := c.rng.genByte
    if nn = 0 then .error .rtPanic
    else .ok ({ c with rng := p.2 }.load_reg x (p.1 % nn))
  else if d = 0xD then c.draw_sprite x y n
  else if d = 0xE then
    if nn = 0x9E then
      match c.keypad.enum.find? (fun q => q.2) with
      | some q => .ok (if vx = q.1 then { c with pc := c.pc + 2 } else c)
      | none => .ok c
    else if nn = 0xA1 then
      match c.keypad.enum.find? (fun q => q.2) with
      | some q => .ok (if vx ≠ q.1 then { c with pc := c.pc + 2 } else c)
      | none => .ok c
    else .error (.exc (.IllegalOpcode opcode))
  else if d = 0xF then
    if nn = 0x07 then .ok (c.load_reg x c.dt)
    else if nn = 0x0A then .ok (c.wait_for_key x)
    else if nn = 0x15 then .ok { c with dt := vx }
    else if nn = 0x18 then .ok { c with st := vx }
    else if nn = 0x1E then .ok (c.load_i ((c.i + vx) % 2 ^ 16))
    else if nn = 0x29 then .ok (c.load_i (5 * vx))
    else if nn = 0x33 then c.store_reg_bcd x
    else if nn = 0x55 then c.store_regs x
    else if nn = 0x65 then c.load_regs x
    else .error (.exc (.IllegalOpcode opcode))
  else .error (.exc (.IllegalOpcode opcode))

/-- `fetch`: big-endian instruction word, high byte at `pc`, low byte at
`pc + 1`.  The Rust code indexes memory unchecked; `pc + 1` can be out of
range (at `pc = 4095`), which is a panic. -/
def Chip.fetch (c : Chip) : Except RunError Nat :=
  match c.mem.get? c.pc, c.mem.get? (c.pc + 1) with
  | some hi, some lo => .ok ((hi <<< 8) ||| lo)
  | _, _ => .error .rtPanic

/-- `tick()`: decrement both timers (floor 0), fail with `OutOfMemory` when
`pc ≥ MEM_SIZE`, else fetch, advance `pc` by 2, and execute. -/
def Chip.tick (c : Chip) : Except RunError Chip :=
  let c1 := if c.dt > 0 then { c with dt := c.dt - 1 } else c
  let c2 := if c1.st > 0 then { c1 with st := c1.st - 1 } else c1
  if c2.pc ≥ MEM_SIZE then .error (.exc (.OutOfMemory c2.pc))
  else do
    let op ← c2.fetch
    Chip.execute { c2 with pc := c2.pc + 2 } op

/-- Execute the same opcode `k` times in sequence (used to state the nested
call discipline). -/
def Chip.execN (c : Chip) (opcode : Nat) : Nat → Except RunError Chip
  | 0 => .ok c
  | k + 1 => do
    let c1 ← c.execute opcode
    c1.execN opcode k

/-- Spec-side pixel-hit predicate for the draw opcode, following the claim's
words: pixel `p` is hit exactly when some set bit `j` of some sprite row
`r < n` lands on it at the wrapped coordinates
`((xv + j) % 64, (yv + r) % 32)`. -/
def spriteHit (mem : List Nat) (iReg xv yv n p : Nat) : Bool :=
  (List.range n).any fun r => (List.range 8).any fun j =>
    decide (mem.getD (iReg + r) 0 &&& (0x80 >>> j) ≠ 0) &&
    decide ((xv + j) % DISP_WIDTH + ((yv + r) % DISP_HEIGHT) * DISP_WIDTH = p)

/-- Spec-side collision predicate for the draw opcode: some set sprite bit
lands on a pixel that was on before the draw. -/
def spriteCollision (mem : List Nat) (iReg xv yv n : Nat) (fb : List Bool) : Bool :=
  (List.range n).any fun r => (List.range 8).any fun j =>
    decide (mem.getD (iReg + r) 0 &&& (0x80 >>> j) ≠ 0) &&
    fb.getD ((xv + j) % DISP_WIDTH + ((yv + r) % DISP_HEIGHT) * DISP_WIDTH) false

/-- Machine used to exhibit the off-by-one of `store_regs`: index register at
768, register 0 holding 7. -/
def storeX0Machine : Chip :=
  { Chip.new 0 with i := 768, v := (Chip.new 0).v.set 0 7 }

/-- Machine used to exhibit the off-by-one of `load_regs`: index register at
768, memory byte 768 holding 9. -/
def loadX0Machine : Chip :=
  { Chip.new 0 with i := 768, mem := (Chip.new 0).mem.set 768 9 }

/-- Fresh machine whose program is the single wait-for-key instruction
`0xF00A` at the entry address; no key pressed, register 0 = 0. -/
def waitKeyMachine : Chip :=
  { Chip.new 0 with mem := writeRange (Chip.new 0).mem 512 [0xF0, 0x0A] }

/-- `waitKeyMachine` with key 1 pressed and register 0 = 1. -/
def waitKeyPressedMachine : Chip :=
  { waitKeyMachine with
    keypad := waitKeyMachine.keypad.set 1 true
    v := waitKeyMachine.v.set 0 1 }

/-- `waitKeyMachine` with keys 0 and 1 both pressed and register 0 = 1: the
lowest-indexed pressed key (0) differs from the value of register 0 (1). -/
def waitKeyTwoKeysMachine : Chip :=
  { waitKeyMachine with
    keypad := (waitKeyMachine.keypad.set 0 true).set 1 true
    v := waitKeyMachine.v.set 0 1 }

/-- Machine exhibiting the `x = 0xF` edge of add-with-carry: register 0xF
holds 5, register 0 holds 7. -/
def addCarryVFMachine : Chip :=
  { Chip.new 0 with v := ((Chip.new 0).v.set 15 5).set 0 7 }

/-- Machine for the add-with-carry witness: register 0 = 200, register 1 =
100. -/
def addCarryWitnessMachine : Chip :=
  { Chip.new 0 with v := ((Chip.new 0).v.set 0 200).set 1 100 }

/-- Machine for the draw witness: register 0 = 60, register 1 = 0, index
register 0 (so the sprite row is the font byte `0xF0`). -/
def drawWitnessMachine : Chip :=
  { Chip.new 0 with v := (Chip.new 0).v.set 0 60 }

/-- Machine whose index register is past the end of memory, used to show the
draw handler needs its precondition. -/
def drawOobMachine : Chip :=
  { Chip.new 0 with i := 4096 }

/-- Stack contents after a run of `k` pushes starting at slot `s`: the first
push writes `first`, each later one writes `rest`. -/
def fillCalls (st : List Nat) (s first rest : Nat) : Nat → List Nat
  | 0 => st
  | k + 1 => fillCalls (st.set s first) (s + 1) rest rest k

/-! ## General list helper lemmas -/

theorem getD_set_self {α} (l : List α) (n : Nat) (a d : α) (h : n < l.length) :
    (l.set n a).getD n d = a := by
  simp [List.getD_eq_getElem?_getD, List.getElem?_set_self h]

theorem getD_set_ne {α} (l : List α) (m n : Nat) (a d : α) (h : m ≠ n) :
    (l.set m a).getD n d = l.getD n d := by
  simp [List.getD_eq_getElem?_getD, List.getElem?_set_ne h]

theorem get?_eq_some_getD {α} (l : List α) (n : Nat) (d : α) (h : n < l.length) :
    l.get? n = some (l.getD n d) := by
  simp [List.get?_eq_getElem?, List.getD_eq_getElem?_getD, List.getElem?_eq_getElem h]

theorem any_congr {α} (l : List α) (p q : α → Bool) (h : ∀ a ∈ l, p a = q a) :
    l.any p = l.any q := by
  induction l with
  | nil => rfl
  | cons a t ih =>
    simp only [List.any_cons, h a (by simp)]
    rw [ih fun b hb => h b (by simp [hb])]

/-! ## Interpreter helper lemmas -/

/-- Overwriting a range never changes a list's length. -/
theorem length_writeRange (bin : List Nat) :
    ∀ (mem : List Nat) (offset : Nat), (writeRange mem offset bin).length = mem.length := by
  induction bin with
  | nil => intro mem offset; rfl
  | cons b rest ih =>
    intro mem offset
    rw [writeRange, ih, List.length_set]

/-- The font table has 80 bytes. -/
theorem CHARS_length : CHARS.length = 80 := by decide

/-- Sizes of the arrays of a freshly constructed machine. -/
theorem new_lengths (seed : Nat) :
    (Chip.new seed).mem.length = 4096 ∧ (Chip.new seed).v.length = 16 ∧
    (Chip.new seed).keypad.length = 16 ∧ (Chip.new seed).fb.length = 2048 ∧
    (Chip.new seed).stack.length = 16 := by
  refine ⟨?_, ?_, ?_, ?_, ?_⟩
  · show (CHARS ++ List.replicate (MEM_SIZE - CHARS_SIZE) 0).length = 4096
    rw [List.length_append, CHARS_length, List.length_replicate]
    decide
  · show (List.replicate REG_NUM 0).length = 16
    rw [List.length_replicate]
    decide
  · show (List.replicate 16 false).length = 16
    rw [List.length_replicate]
  · show (List.replicate (DISP_WIDTH * DISP_HEIGHT) false).length = 2048
    rw [List.length_replicate]
    decide
  · show (List.replicate STACK_SIZE 0).length = 16
    rw [List.length_replicate]
    decide

/-- Index-keyed search over an enumerated key list, characterised: the
predicate matches at most the entry whose index is `v`. -/
theorem find_key_enumFrom (v : Nat) (l : List Bool) :
    ∀ (s : Nat),
      (List.enumFrom s l).find? (fun q => v == q.1 && q.2) =
        if s ≤ v ∧ v - s < l.length ∧ l.getD (v - s) false = true
        then some (v, true) else none := by
  induction l with
  | nil => intro s; simp
  | cons b t ih =>
    intro s
    rw [List.enumFrom_cons, List.find?_cons]
    by_cases hv : v = s
    · subst hv
      cases b with
      | true => simp
      | false =>
        simp only [ih (v + 1)]
        have h1 : ¬ (v + 1 ≤ v) := by omega
        have h2 : v - v = 0 := by omega
        simp [h1, h2]
    · have hne : (v == s) = false := by simp [hv]
      simp only [hne, Bool.false_and]
      rw [ih (s + 1)]
      by_cases hlt : s < v
      · have hvs : v - s = (v - (s + 1)) + 1 := by omega
        rw [hvs]
        simp only [List.getD_cons_succ, List.length_cons]
        congr 1
        exact propext ⟨fun ⟨h1, h2, h3⟩ => ⟨by omega, by omega, h3⟩,
          fun ⟨h1, h2, h3⟩ => ⟨by omega, by omega, h3⟩⟩
      · have h1 : ¬ (s + 1 ≤ v) := by omega
        have h2 : ¬ (s ≤ v) := by omega
        simp [h1, h2]

/-- The search of `wait_for_key` succeeds exactly when key number `v` exists
and is pressed. -/
theorem find_key_enum (v : Nat) (l : List Bool) (hl : l.length = 16) :
    l.enum.find? (fun q => v == q.1 && q.2) =
      if v < 16 ∧ l.getD v false = true then some (v, true) else none := by
  rw [show l.enum = List.enumFrom 0 l from rfl, find_key_enumFrom v l 0]
  congr 1
  rw [hl]
  exact propext ⟨fun ⟨h1, h2, h3⟩ => ⟨by omega, by simpa using h3⟩,
    fun ⟨h1, h3⟩ => ⟨by omega, by omega, by simpa using h3⟩⟩

/-- `wait_for_key` in closed form: skip the next instruction exactly when
the key indexed by the value of register `x` is currently pressed. -/
theorem wait_for_key_eq (c : Chip) (x : Nat) (hk : c.keypad.length = 16) :
    c.wait_for_key x =
      (if c.v.getD x 0 < 16 ∧ c.keypad.getD (c.v.getD x 0) false = true
       then { c with pc := c.pc + 2 } else c) := by
  rw [Chip.wait_for_key, find_key_enum _ _ hk]
  by_cases h : c.v.getD x 0 < 16 ∧ c.keypad.getD (c.v.getD x 0) false = true
  · rw [if_pos h, if_pos h]
  · rw [if_neg h, if_neg h]

/-- The delay-timer step of `tick` in closed form (`Nat` subtraction floors
at zero exactly like the guarded decrement). -/
theorem dec_dt (c : Chip) :
    (if c.dt > 0 then { c with dt := c.dt - 1 } else c) = { c with dt := c.dt - 1 } := by
  rcases Nat.eq_zero_or_pos c.dt with hd | hd
  · rw [if_neg (by omega)]
    have h1 : c.dt - 1 = c.dt := by omega
    rw [h1]
  · rw [if_pos hd]

/-- The sound-timer step of `tick` in closed form. -/
theorem dec_st (c : Chip) :
    (if c.st > 0 then { c with st := c.st - 1 } else c) = { c with st := c.st - 1 } := by
  rcases Nat.eq_zero_or_pos c.st with hs | hs
  · rw [if_neg (by omega)]
    have h1 : c.st - 1 = c.st := by omega
    rw [h1]
  · rw [if_pos hs]

/-- `tick` in closed form: decrement both timers, guard the fetch, advance
`pc` by 2, execute. -/
theorem tick_eq (c : Chip) :
    c.tick = (if c.pc ≥ MEM_SIZE then .error (.exc (.OutOfMemory c.pc))
      else c.fetch >>= fun op =>
        Chip.execute { c with dt := c.dt - 1, st := c.st - 1, pc := c.pc + 2 } op) := by
  simp only [Chip.tick]
  rw [dec_dt c]
  rw [dec_st { c with dt := c.dt - 1 }]
  rfl

/-- Bind on a successful `Except` result. -/
theorem ebind_ok {ε α β : Type} (a : α) (f : α → Except ε β) :
    ((.ok a : Except ε α) >>= f) = f a := rfl

/-- Field extraction of an `0xFx0A` opcode assembled from its two memory
bytes. -/
theorem decode_F0A (x : Fin 16) :
    ((((0xF0 + x.val) <<< 8) ||| 0x0A) &&& 0xF000) >>> 12 = 0xF ∧
    ((((0xF0 + x.val) <<< 8) ||| 0x0A) &&& 0x0F00) >>> 8 = x.val ∧
    ((((0xF0 + x.val) <<< 8) ||| 0x0A) &&& 0x00FF) = 0x0A := by
  revert x; decide

theorem ebind_err {ε α β : Type} (e : ε) (f : α → Except ε β) :
    ((.error e : Except ε α) >>= f) = .error e := rfl

theorem shiftRight_land (m n k : Nat) : (m &&& n) >>> k = (m >>> k) &&& (n >>> k) := by
  apply Nat.eq_of_testBit_eq
  intro i
  simp [Nat.testBit_shiftRight, Nat.testBit_and]

theorem decode_2nnn (a : Nat) (ha : a < 4096) :
    ((0x2000 + a) &&& 0xF000) >>> 12 = 2 ∧ ((0x2000 + a) &&& 0x0FFF) = a := by
  constructor
  · rw [shiftRight_land, Nat.shiftRight_eq_div_pow]
    have h2 : (0x2000 + a) / 2 ^ 12 = 2 := by omega
    rw [h2]
    decide
  · have h := Nat.and_pow_two_sub_one_eq_mod (0x2000 + a) 12
    norm_num at h ⊢
    omega

theorem fillCalls_length : ∀ (k : Nat) (st : List Nat) (s first rest : Nat),
    (fillCalls st s first rest k).length = st.length := by
  intro k
  induction k with
  | zero => intro st s first rest; rfl
  | succ k ih =>
    intro st s first rest
    rw [fillCalls, ih, List.length_set]

theorem fillCalls_get? : ∀ (k : Nat) (st : List Nat) (s first rest p : Nat),
    s + k ≤ st.length →
    (fillCalls st s first rest k).get? p =
      (if p = s ∧ 0 < k then some first
       else if s < p ∧ p < s + k then some rest
       else st.get? p) := by
  intro k
  induction k with
  | zero =>
    intro st s first rest p h
    rw [fillCalls]
    rw [if_neg (by omega), if_neg (by omega)]
  | succ k ih =>
    intro st s first rest p h
    rw [fillCalls, ih _ _ _ _ _ (by rw [List.length_set]; omega)]
    by_cases h1 : p = s
    · subst h1
      rw [if_neg (by omega), if_neg (by omega), if_pos ⟨rfl, by omega⟩]
      rw [List.get?_eq_getElem?, List.getElem?_set_self (by omega)]
    · by_cases h2 : s < p ∧ p < s + (k + 1)
      · by_cases h3 : p = s + 1 ∧ 0 < k
        · rw [if_pos h3, if_neg (by omega), if_pos h2]
        · rw [if_neg h3, if_pos (by omega), if_neg (by omega), if_pos h2]
      · rw [if_neg (by omega), if_neg (by omega), if_neg (by omega), if_neg h2]
        rw [List.get?_eq_getElem?, List.get?_eq_getElem?, List.getElem?_set_ne (by omega)]

theorem execute_call (c : Chip) (a : Nat) (ha : a < 4096) (h : c.sp < 16) :
    Chip.execute c (0x2000 + a) =
      .ok { c with stack := c.stack.set c.sp c.pc, sp := c.sp + 1, pc := a } := by
  obtain ⟨hd, hnnn⟩ := decode_2nnn a ha
  simp only [Chip.execute, hd, hnnn]
  norm_num
  rw [Chip.call, if_neg (by simp only [STACK_SIZE]; omega), if_neg (by omega)]

theorem execute_call_overflow (c : Chip) (a : Nat) (ha : a < 4096) (h : 16 ≤ c.sp) :
    Chip.execute c (0x2000 + a) = .error (.exc (.StackOverflow c.sp)) := by
  obtain ⟨hd, hnnn⟩ := decode_2nnn a ha
  simp only [Chip.execute, hd, hnnn]
  norm_num
  rw [Chip.call, if_pos (by simp only [STACK_SIZE]; omega)]

theorem execN_succ (op : Nat) : ∀ (k : Nat) (c : Chip),
    c.execN op (k + 1) = (c.execN op k) >>= fun c1 => c1.execute op := by
  intro k
  induction k with
  | zero =>
    intro c
    show (c.execute op >>= fun c1 => Chip.execN c1 op 0) =
      ((.ok c : Except RunError Chip) >>= fun c1 => c1.execute op)
    rw [ebind_ok]
    cases h : c.execute op with
    | ok c1 => rw [ebind_ok]; rfl
    | error e => rw [ebind_err]
  | succ k ih =>
    intro c
    rw [show c.execN op (k + 1 + 1) = c.execute op >>= fun c1 => Chip.execN c1 op (k + 1) from rfl,
      show c.execN op (k + 1) = c.execute op >>= fun c1 => Chip.execN c1 op k from rfl]
    cases h : c.execute op with
    | ok c1 => rw [ebind_ok, ebind_ok, ih c1]
    | error e => rw [ebind_err, ebind_err, ebind_err]

theorem execN_calls (a : Nat) (ha : a < 4096) : ∀ (k : Nat) (c : Chip), c.sp + k ≤ 16 →
    c.execN (0x2000 + a) k =
      .ok { c with
        stack := fillCalls c.stack c.sp c.pc a k
        sp := c.sp + k
        pc := if k = 0 then c.pc else a } := by
  intro k
  induction k with
  | zero => intro c h; rw [fillCalls]; rfl
  | succ k ih =>
    intro c h
    show (c.execute (0x2000 + a) >>= fun c1 => Chip.execN c1 (0x2000 + a) k) = _
    rw [execute_call c a ha (by omega), ebind_ok,
      ih { c with stack := c.stack.set c.sp c.pc, sp := c.sp + 1, pc := a }
        (by show c.sp + 1 + k ≤ 16; omega)]
    have hsp : c.sp + 1 + k = c.sp + (k + 1) := by omega
    rw [fillCalls]
    by_cases hk : k = 0
    · subst hk; rw [if_pos rfl, if_neg (by omega)]
    · rw [if_neg hk, if_neg (by omega)]
      show Except.ok _ = Except.ok _
      rw [hsp]

theorem execute_ret_underflow (c : Chip) (hsp : c.sp = 0) :
    Chip.execute c 0x00EE = .error (.exc (.StackUnderflow 0)) := by
  simp only [Chip.execute, show ((0x00EE &&& 0xF000) >>> 12) = 0 from by decide,
    show (0x00EE &&& 0x00FF) = 0xEE from by decide]
  norm_num
  rw [Chip.ret, if_pos hsp, hsp]

theorem execute_ret_pop (c : Chip) (h1 : 1 ≤ c.sp) (h2 : c.sp ≤ 16) (hst : c.stack.length = 16) :
    Chip.execute c 0x00EE = .ok { c with sp := c.sp - 1, pc := c.stack.getD (c.sp - 1) 0 } := by
  simp only [Chip.execute, show ((0x00EE &&& 0xF000) >>> 12) = 0 from by decide,
    show (0x00EE &&& 0x00FF) = 0xEE from by decide]
  norm_num
  rw [Chip.ret, if_neg (by omega), get?_eq_some_getD _ _ 0 (by omega)]
  simp [List.getD_eq_getElem?_getD]

theorem xor_xor_or (a b c : Bool) (h : ¬ (b = true ∧ c = true)) :
    xor (xor a b) c = xor a (b || c) := by
  cases a <;> cases b <;> cases c <;> simp_all

theorem drawBits_char (sprite xv yrow : Nat) (hyrow : yrow < 32) :
    ∀ (js : List Nat) (fb : List Bool) (fl : Bool),
      fb.length = 2048 →
      js.Nodup → (∀ j ∈ js, j < 8) →
      ((drawBits sprite xv yrow js fb fl).1.length = 2048 ∧
       (∀ p : Nat,
         (drawBits sprite xv yrow js fb fl).1.getD p false =
           xor (fb.getD p false)
             (js.any fun j => decide (sprite &&& (0x80 >>> j) ≠ 0) &&
               decide ((xv + j) % DISP_WIDTH + yrow * DISP_WIDTH = p))) ∧
       (drawBits sprite xv yrow js fb fl).2 =
         (fl || js.any fun j => decide (sprite &&& (0x80 >>> j) ≠ 0) &&
           fb.getD ((xv + j) % DISP_WIDTH + yrow * DISP_WIDTH) false)) := by
  intro js
  induction js with
  | nil =>
    intro fb fl hlen _ _
    refine ⟨hlen, fun p => by simp [drawBits], by simp [drawBits]⟩
  | cons j rest ih =>
    intro fb fl hlen hnd hlt
    have hj8 : j < 8 := hlt j (by simp)
    have hrest8 : ∀ j' ∈ rest, j' < 8 := fun j' hj' => hlt j' (by simp [hj'])
    have hndrest : rest.Nodup := (List.nodup_cons.mp hnd).2
    have hjnot : j ∉ rest := (List.nodup_cons.mp hnd).1
    by_cases hbit : sprite &&& (0x80 >>> j) ≠ 0
    · -- bit set: one pixel is toggled, then the rest of the row is drawn
      have hidx : (xv + j) % DISP_WIDTH + yrow * DISP_WIDTH < 2048 := by
        have h1 : (xv + j) % DISP_WIDTH < 64 := by
          simp only [DISP_WIDTH]; omega
        simp only [DISP_WIDTH] at h1 ⊢
        omega
      set idx := (xv + j) % DISP_WIDTH + yrow * DISP_WIDTH with hidxdef
      have hstep : drawBits sprite xv yrow (j :: rest) fb fl =
          drawBits sprite xv yrow rest (fb.set idx (! fb.getD idx false))
            (fl || fb.getD idx false) := by
        rw [drawBits, if_pos hbit]
      have hlen1 : (fb.set idx (! fb.getD idx false)).length = 2048 := by
        rw [List.length_set, hlen]
      obtain ⟨ihlen, ihpt, ihfl⟩ := ih (fb.set idx (! fb.getD idx false))
        (fl || fb.getD idx false) hlen1 hndrest hrest8
      have hinj : ∀ j' ∈ rest, (xv + j') % DISP_WIDTH + yrow * DISP_WIDTH ≠ idx := by
        intro j' hj'
        have h8 : j' < 8 := hrest8 j' hj'
        have hne : j' ≠ j := fun he => hjnot (he ▸ hj')
        rw [hidxdef]
        simp only [DISP_WIDTH]
        omega
      refine ⟨by rw [hstep]; exact ihlen, ?_, ?_⟩
      · intro p
        rw [hstep, ihpt p, List.any_cons]
        rw [decide_eq_true hbit]
        simp only [Bool.true_and]
        by_cases hp : p = idx
        · rw [hp, getD_set_self _ _ _ _ (by omega)]
          have hrest_none :
              (rest.any fun j' => decide (sprite &&& (0x80 >>> j') ≠ 0) &&
                decide ((xv + j') % DISP_WIDTH + yrow * DISP_WIDTH = idx)) = false := by
            rw [List.any_eq_false]
            intro j' hj'
            simp only [Bool.and_eq_true, decide_eq_true_eq, not_and]
            intro _ he
            exact hinj j' hj' he
          rw [hrest_none]
          cases h0 : fb.getD idx false <;> simp
        · rw [getD_set_ne _ _ _ _ _ (fun he => hp he.symm)]
          have hhead : decide (idx = p) = false := by
            simp only [decide_eq_false_iff_not]
            exact fun he => hp he.symm
          rw [hhead]
          simp
      · rw [hstep, ihfl]
        have hcong :
            (rest.any fun j' => decide (sprite &&& (0x80 >>> j') ≠ 0) &&
              (fb.set idx (! fb.getD idx false)).getD
                ((xv + j') % DISP_WIDTH + yrow * DISP_WIDTH) false) =
            (rest.any fun j' => decide (sprite &&& (0x80 >>> j') ≠ 0) &&
              fb.getD ((xv + j') % DISP_WIDTH + yrow * DISP_WIDTH) false) := by
          apply any_congr
          intro j' hj'
          rw [getD_set_ne _ _ _ _ _ (fun he => hinj j' hj' he.symm)]
        rw [hcong, List.any_cons]
        rw [decide_eq_true hbit]
        simp only [Bool.true_and]
        rw [← hidxdef]
        cases fb.getD idx false <;> cases fl <;> simp
    · -- bit clear: nothing happens for this bit
      have hstep : drawBits sprite xv yrow (j :: rest) fb fl =
          drawBits sprite xv yrow rest fb fl := by
        rw [drawBits, if_neg hbit]
      obtain ⟨ihlen, ihpt, ihfl⟩ := ih fb fl hlen hndrest hrest8
      have hbitf : (decide (sprite &&& (0x80 >>> j) ≠ 0)) = false := by
        simp only [decide_eq_false_iff_not]
        exact hbit
      refine ⟨by rw [hstep]; exact ihlen, ?_, ?_⟩
      · intro p
        rw [hstep, ihpt p, List.any_cons, hbitf]
        simp
      · rw [hstep, ihfl, List.any_cons, hbitf]
        simp


theorem and_fifteen (m : Nat) : m &&& 15 = m % 16 := by
  have h := Nat.and_pow_two_sub_one_eq_mod m 4
  norm_num at h
  exact h

theorem decode_Dxyn (x y n : Nat) (hx : x < 16) (hy : y < 16) (hn : n < 16) :
    ((0xD000 + 256 * x + 16 * y + n) &&& 0xF000) >>> 12 = 0xD ∧
    ((0xD000 + 256 * x + 16 * y + n) &&& 0x0F00) >>> 8 = x ∧
    ((0xD000 + 256 * x + 16 * y + n) &&& 0x00F0) >>> 4 = y ∧
    ((0xD000 + 256 * x + 16 * y + n) &&& 0x000F) = n := by
  refine ⟨?_, ?_, ?_, ?_⟩
  · rw [shiftRight_land, show (0xF000 : Nat) >>> 12 = 15 from by decide, and_fifteen,
      Nat.shiftRight_eq_div_pow]
    norm_num
    omega
  · rw [shiftRight_land, show (0x0F00 : Nat) >>> 8 = 15 from by decide, and_fifteen,
      Nat.shiftRight_eq_div_pow]
    norm_num
    omega
  · rw [shiftRight_land, show (0x00F0 : Nat) >>> 4 = 15 from by decide, and_fifteen,
      Nat.shiftRight_eq_div_pow]
    norm_num
    omega
  · rw [show (0x000F : Nat) = 15 from rfl, and_fifteen]
    omega

theorem drawRows_ok (mem : List Nat) (iReg xv yv : Nat) :
    ∀ (rs : List Nat) (fb : List Bool) (fl : Bool),
      (∀ r ∈ rs, iReg + r < mem.length) →
      ∃ q, drawRows mem iReg xv yv rs fb fl = .ok q := by
  intro rs
  induction rs with
  | nil => intro fb fl _; exact ⟨(fb, fl), rfl⟩
  | cons r rest ih =>
    intro fb fl hbnd
    have hget : mem.get? (iReg + r) = some (mem.getD (iReg + r) 0) :=
      get?_eq_some_getD _ _ 0 (hbnd r (by simp))
    obtain ⟨q, hq⟩ := ih
      (drawBits (mem.getD (iReg + r) 0) xv ((yv + r) % DISP_HEIGHT) (List.range 8) fb fl).1
      (drawBits (mem.getD (iReg + r) 0) xv ((yv + r) % DISP_HEIGHT) (List.range 8) fb fl).2
      (fun r' h => hbnd r' (by simp [h]))
    refine ⟨q, ?_⟩
    rw [drawRows, hget]
    exact hq

theorem drawRows_char (mem : List Nat) (iReg xv yv : Nat) :
    ∀ (rs : List Nat) (fb : List Bool) (fl : Bool),
      fb.length = 2048 →
      rs.Nodup → (∀ r ∈ rs, r < 32) → (∀ r ∈ rs, iReg + r < mem.length) →
      ∃ q, drawRows mem iReg xv yv rs fb fl = .ok q ∧
        q.1.length = 2048 ∧
        (∀ p : Nat, q.1.getD p false =
          xor (fb.getD p false)
            (rs.any fun r => (List.range 8).any fun j =>
              decide (mem.getD (iReg + r) 0 &&& (0x80 >>> j) ≠ 0) &&
              decide ((xv + j) % DISP_WIDTH + ((yv + r) % DISP_HEIGHT) * DISP_WIDTH = p))) ∧
        q.2 = (fl || rs.any fun r => (List.range 8).any fun j =>
          decide (mem.getD (iReg + r) 0 &&& (0x80 >>> j) ≠ 0) &&
          fb.getD ((xv + j) % DISP_WIDTH + ((yv + r) % DISP_HEIGHT) * DISP_WIDTH) false) := by
  intro rs
  induction rs with
  | nil =>
    intro fb fl hlen _ _ _
    exact ⟨(fb, fl), rfl, hlen, fun p => by simp, by simp⟩
  | cons r rest ih =>
    intro fb fl hlen hnd h32 hbnd
    have hr32 : r < 32 := h32 r (by simp)
    have hrest32 : ∀ r' ∈ rest, r' < 32 := fun r' h => h32 r' (by simp [h])
    have hrestbnd : ∀ r' ∈ rest, iReg + r' < mem.length := fun r' h => hbnd r' (by simp [h])
    have hndrest : rest.Nodup := (List.nodup_cons.mp hnd).2
    have hrnot : r ∉ rest := (List.nodup_cons.mp hnd).1
    have hget : mem.get? (iReg + r) = some (mem.getD (iReg + r) 0) :=
      get?_eq_some_getD _ _ 0 (hbnd r (by simp))
    have hyrow : (yv + r) % DISP_HEIGHT < 32 := by
      simp only [DISP_HEIGHT]; omega
    obtain ⟨blen, bpt, bfl⟩ := drawBits_char (mem.getD (iReg + r) 0) xv
      ((yv + r) % DISP_HEIGHT) hyrow (List.range 8) fb fl hlen
      (List.nodup_range 8) (fun j hj => List.mem_range.mp hj)
    obtain ⟨q, hqeq, qlen, qpt, qfl⟩ :=
      ih (drawBits (mem.getD (iReg + r) 0) xv ((yv + r) % DISP_HEIGHT) (List.range 8) fb fl).1
        (drawBits (mem.getD (iReg + r) 0) xv ((yv + r) % DISP_HEIGHT) (List.range 8) fb fl).2
        blen hndrest hrest32 hrestbnd
    have hstep : drawRows mem iReg xv yv (r :: rest) fb fl = .ok q := by
      rw [drawRows, hget]
      exact hqeq
    -- disjointness of the head strip from every strip of a later row
    have hdisj : ∀ (p : Nat),
        ((List.range 8).any fun j =>
          decide (mem.getD (iReg + r) 0 &&& (0x80 >>> j) ≠ 0) &&
          decide ((xv + j) % DISP_WIDTH + ((yv + r) % DISP_HEIGHT) * DISP_WIDTH = p)) = true →
        (rest.any fun r' => (List.range 8).any fun j =>
          decide (mem.getD (iReg + r') 0 &&& (0x80 >>> j) ≠ 0) &&
          decide ((xv + j) % DISP_WIDTH + ((yv + r') % DISP_HEIGHT) * DISP_WIDTH = p)) = true →
        False := by
      intro p h1 h2
      obtain ⟨j, hjmem, hj⟩ := List.any_eq_true.mp h1
      obtain ⟨r', hr'mem, hr'⟩ := List.any_eq_true.mp h2
      obtain ⟨j', hj'mem, hj'⟩ := List.any_eq_true.mp hr'
      rw [Bool.and_eq_true, decide_eq_true_eq, decide_eq_true_eq] at hj hj'
      have hreq : r = r' := by
        have e1 := hj.2
        have e2 := hj'.2
        have hr'32 : r' < 32 := hrest32 r' hr'mem
        simp only [DISP_WIDTH, DISP_HEIGHT] at e1 e2
        omega
      exact hrnot (hreq ▸ hr'mem)
    refine ⟨q, hstep, qlen, ?_, ?_⟩
    · intro p
      rw [qpt p, bpt p, List.any_cons]
      apply xor_xor_or
      rintro ⟨hh, hr⟩
      exact hdisj p hh hr
    · rw [qfl, bfl, List.any_cons]
      have hcong :
          (rest.any fun r' => (List.range 8).any fun j =>
            decide (mem.getD (iReg + r') 0 &&& (0x80 >>> j) ≠ 0) &&
            (drawBits (mem.getD (iReg + r) 0) xv ((yv + r) % DISP_HEIGHT)
              (List.range 8) fb fl).1.getD
              ((xv + j) % DISP_WIDTH + ((yv + r') % DISP_HEIGHT) * DISP_WIDTH) false) =
          (rest.any fun r' => (List.range 8).any fun j =>
            decide (mem.getD (iReg + r') 0 &&& (0x80 >>> j) ≠ 0) &&
            fb.getD ((xv + j) % DISP_WIDTH + ((yv + r') % DISP_HEIGHT) * DISP_WIDTH) false) := by
        apply any_congr
        intro r' hr'mem
        apply any_congr
        intro j' hj'mem
        have hpos : (drawBits (mem.getD (iReg + r) 0) xv ((yv + r) % DISP_HEIGHT)
            (List.range 8) fb fl).1.getD
            ((xv + j') % DISP_WIDTH + ((yv + r') % DISP_HEIGHT) * DISP_WIDTH) false =
            fb.getD ((xv + j') % DISP_WIDTH + ((yv + r') % DISP_HEIGHT) * DISP_WIDTH) false := by
          rw [bpt]
          have hnone : ((List.range 8).any fun j =>
              decide (mem.getD (iReg + r) 0 &&& (0x80 >>> j) ≠ 0) &&
              decide ((xv + j) % DISP_WIDTH + ((yv + r) % DISP_HEIGHT) * DISP_WIDTH =
                (xv + j') % DISP_WIDTH + ((yv + r') % DISP_HEIGHT) * DISP_WIDTH)) = false := by
            rw [List.any_eq_false]
            intro j0 hj0mem
            simp only [Bool.and_eq_true, decide_eq_true_eq, not_and]
            intro _ heq
            have hr'32 : r' < 32 := hrest32 r' hr'mem
            have hreq : r = r' := by
              simp only [DISP_WIDTH, DISP_HEIGHT] at heq
              omega
            exact hrnot (hreq ▸ hr'mem)
          rw [hnone]
          simp
        rw [hpos]
      rw [hcong]
      cases fl <;> simp [Bool.or_assoc]

/-! ## Claim theorems -/

/-- C1.  The register-block opcodes are off by one: `store_regs`/`load_regs`
loop `for i in 0..x`, which excludes register `x` itself, while the claim
requires registers `0..x` inclusive.  At the failing input `x = 0` (opcodes
`0xF055` / `0xF065`) with the index register at 768, register 0 holding 7
(resp. memory byte 768 holding 9), the operations succeed but transfer
nothing: memory byte 768 stays 0 after the store and register 0 stays 0
after the load, though the claim requires 7 (resp. 9) to be transferred. -/
theorem claim_C1_store_load_regs_offByOne :
    (Chip.execute storeX0Machine 0xF055).map (fun c => c.mem.getD 768 0) = .ok 0 ∧
    storeX0Machine.v.getD 0 0 = 7 ∧
    (Chip.execute loadX0Machine 0xF065).map (fun c => c.v.getD 0 0) = .ok 0 ∧
    loadX0Machine.mem.getD 768 0 = 9 :=
  ⟨by decide, by decide, by decide, by decide⟩

/-- C3.  `reset` does not restore the font table: it fills the whole memory
with zeroes, so byte 0 is 0 after `reset(new(0), 0)` while it is `0xF0`
(the first font byte) immediately after `new(0)` — the claim requires the
two to be equal.  The random source is re-seeded identically (that part of
the claim holds). -/
theorem claim_C3_reset_drops_font :
    ((Chip.new 0).reset 0).mem.getD 0 0 = 0 ∧
    (Chip.new 0).mem.getD 0 0 = 0xF0 ∧
    ((Chip.new 0).reset 0).rng = (Chip.new 0).rng ∧
    ((Chip.new 0).reset 0).pc = (Chip.new 0).pc :=
  ⟨by decide, by decide, by decide, by decide⟩

/-- C4.  Loading at an offset beyond memory does not fail with
`OutOfMemory` as claimed: for `offset = 4097`, even with an empty program
(`O + L = 4097 > 4096`), `load_rom` panics (`MEM_SIZE - offset` underflows
in `usize` arithmetic; in a release build the slice indexing panics
instead), rather than returning the claimed error.  For offsets inside
memory the claimed behaviour does hold, as the other two conjuncts
illustrate at `O = 4090`. -/
theorem claim_C4_load_rom_panics_past_end :
    Chip.load_rom (Chip.new 0) 4097 [] = .error .rtPanic ∧
    (Chip.load_rom (Chip.new 0) 4090 [1, 2, 3, 4, 5, 6]).isOk = true ∧
    Chip.load_rom (Chip.new 0) 4090 [1, 2, 3, 4, 5, 6, 7] =
      .error (.exc (.OutOfMemory 7)) :=
  ⟨by decide, by decide, by decide⟩

/-- C5.  The random opcode is not total: `0xCxnn` computes
`random_byte % nn`, and for `nn = 0` (opcode `0xC000`) the Rust remainder
by zero panics, while the claim says it never faults and stores 0.  For a
nonzero immediate (`0xC007`) it succeeds, as the second conjunct shows. -/
theorem claim_C5_random_mod_zero_panics :
    Chip.execute (Chip.new 0) 0xC000 = .error .rtPanic ∧
    (Chip.execute (Chip.new 0) 0xC007).isOk = true :=
  ⟨by decide, by decide⟩

/-- C6.  Fetch can index memory out of bounds: with `pc = 4095` the guard
`pc ≥ 4096` passes, and `fetch` reads `mem[4096]`, one past the end of the
4096-byte memory — a panic — while the claim says both instruction bytes
lie within memory whenever `pc < 4096`.  With `pc = 4096` the claimed
`OutOfMemory` failure does occur (first conjunct). -/
theorem claim_C6_fetch_oob_at_4095 :
    Chip.tick { Chip.new 0 with pc := 4096 } = .error (.exc (.OutOfMemory 4096)) ∧
    Chip.tick { Chip.new 0 with pc := 4095 } = .error .rtPanic :=
  ⟨by decide, by decide⟩

/-- Field extraction of an `0x8xy4` opcode built from register nibbles. -/
theorem decode_8xy4 (x y : Fin 16) :
    ((0x8004 + 256 * x.val + 16 * y.val) &&& 0xF000) >>> 12 = 8 ∧
    ((0x8004 + 256 * x.val + 16 * y.val) &&& 0x0F00) >>> 8 = x.val ∧
    ((0x8004 + 256 * x.val + 16 * y.val) &&& 0x00F0) >>> 4 = y.val ∧
    ((0x8004 + 256 * x.val + 16 * y.val) &&& 0x000F) = 4 := by
  revert x y; decide

/-- C8, counterexample.  The claim fails when the destination register is
the flags register itself: with registers 0xF = 5 and 0 = 7, opcode
`0x8F04` must (per the claim) leave `(5 + 7) % 256 = 12` in register 0xF,
but the handler's subsequent carry-flag write overwrites it with 0. -/
theorem claim_C8_counterexample :
    (Chip.execute addCarryVFMachine 0x8F04).map (fun c => c.v.getD 15 0) ≠ .ok 12 ∧
    (Chip.execute addCarryVFMachine 0x8F04).map (fun c => c.v.getD 15 0) = .ok 0 :=
  ⟨by decide, by decide⟩

/-- C8, amended.  For every machine and registers `x ≠ 0xF`, `y`, with
register `x` holding `a` and register `y` holding `b`, opcode `0x8xy4`
stores `(a + b) % 256` in register `x` and sets register 0xF to 1 exactly
when `a + b ≥ 256` (when `x = 0xF` the flag write instead overwrites the
sum, see the counterexample). -/
theorem claim_C8_amended (c : Chip) (x y : Fin 16) (a b : Nat) (hx : x.val ≠ 15)
    (hlen : c.v.length = 16) (ha : c.v.getD x.val 0 = a) (hb : c.v.getD y.val 0 = b) :
    ∃ c', Chip.execute c (0x8004 + 256 * x.val + 16 * y.val) = .ok c' ∧
      c'.v.getD x.val 0 = (a + b) % 256 ∧
      c'.v.getD 15 0 = (if 256 ≤ a + b then 1 else 0) := by
  obtain ⟨hd, hx', hy', hn⟩ := decode_8xy4 x y
  have heq : Chip.execute c (0x8004 + 256 * x.val + 16 * y.val) =
      .ok ((c.load_reg x.val ((a + b) % 256)).load_reg 0xF
        (if 256 ≤ a + b then 1 else 0)) := by
    simp only [Chip.execute, hd, hx', hy', hn, ha, hb]
    norm_num
  refine ⟨_, heq, ?_, ?_⟩
  · show ((c.v.set x.val ((a + b) % 256)).set 0xF _).getD x.val 0 = (a + b) % 256
    rw [getD_set_ne _ _ _ _ _ (by omega), getD_set_self]
    rw [hlen]; exact x.isLt
  · show ((c.v.set x.val ((a + b) % 256)).set 0xF _).getD 15 0 = _
    rw [getD_set_self]
    simp [hlen]

/-- C8, witness: registers 0 = 200, 1 = 100; opcode `0x8014` leaves
`(200 + 100) % 256 = 44` in register 0 and carry 1 in register 0xF. -/
theorem claim_C8_amended_witness :
    ∃ c', Chip.execute addCarryWitnessMachine
        (0x8004 + 256 * (0 : Fin 16).val + 16 * (1 : Fin 16).val) = .ok c' ∧
      c'.v.getD (0 : Fin 16).val 0 = (200 + 100) % 256 ∧
      c'.v.getD 15 0 = (if 256 ≤ 200 + 100 then 1 else 0) :=
  claim_C8_amended addCarryWitnessMachine 0 1 200 100 (by decide) (by decide)
    (by decide) (by decide)

/-- C2, counterexample.  `waitKeyMachine` has the wait-for-key opcode
`0xF00A` at `pc = 512` and no key pressed, so per the claim the program
counter must not move past the instruction (the same instruction would be
fetched next tick, i.e. `pc` stays 512); the code instead advances it to
514.  `waitKeyTwoKeysMachine` has keys 0 and 1 pressed with register 0 = 1:
the lowest-indexed pressed key is 0 ≠ 1, so per the claim `pc` must again
stay put, yet the code advances it to 516 (the match condition actually
used is `keypad[v[x]]`, and the skip adds 2 on top of the standard
advance). -/
theorem claim_C2_counterexample :
    (Chip.tick waitKeyMachine).map Chip.pc ≠ .ok 512 ∧
    (Chip.tick waitKeyMachine).map Chip.pc = .ok 514 ∧
    waitKeyMachine.pc = 512 ∧
    (Chip.tick waitKeyTwoKeysMachine).map Chip.pc = .ok 516 :=
  ⟨by decide, by decide, by decide, by decide⟩

/-- C2, amended.  Ticking a machine whose current instruction is `0xFx0A`
(and whose fetch is in bounds) always succeeds; beyond the timer decrements,
the program counter advances by 4 — the standard advance of 2 plus a skip of
the next instruction — exactly when the key indexed by the value of register
`x` exists and is currently pressed, and otherwise advances by the standard
2 (so the instruction is never re-executed; which keys other than number
`v[x]` are pressed is irrelevant). -/
theorem claim_C2_amended (c : Chip) (x : Fin 16)
    (hk : c.keypad.length = 16)
    (hm : c.mem.length = 4096)
    (hpc : c.pc + 1 < 4096)
    (hhi : c.mem.getD c.pc 0 = 0xF0 + x.val)
    (hlo : c.mem.getD (c.pc + 1) 0 = 0x0A) :
    Chip.tick c = .ok { c with
      dt := c.dt - 1
      st := c.st - 1
      pc := if c.v.getD x.val 0 < 16 ∧ c.keypad.getD (c.v.getD x.val 0) false = true
            then c.pc + 4 else c.pc + 2 } := by
  have hfetch : c.fetch = .ok (((0xF0 + x.val) <<< 8) ||| 0x0A) := by
    rw [Chip.fetch, get?_eq_some_getD _ _ 0 (by omega),
      get?_eq_some_getD _ _ 0 (by omega)]
    dsimp only
    rw [hhi, hlo]
  obtain ⟨hd, hx', hnn⟩ := decode_F0A x
  have hexec : ∀ (c' : Chip),
      Chip.execute c' (((0xF0 + x.val) <<< 8) ||| 0x0A) = .ok (c'.wait_for_key x.val) := by
    intro c'
    simp only [Chip.execute, hd, hx', hnn]
    norm_num
  rw [tick_eq c, if_neg (by simp only [MEM_SIZE]; omega), hfetch, ebind_ok, hexec,
    wait_for_key_eq { c with dt := c.dt - 1, st := c.st - 1, pc := c.pc + 2 } x.val
      (by simpa using hk)]
  dsimp only
  by_cases hkey : c.v.getD x.val 0 < 16 ∧ c.keypad.getD (c.v.getD x.val 0) false = true
  · rw [if_pos hkey, if_pos hkey]
  · rw [if_neg hkey, if_neg hkey]

/-- C2, witness: key 1 pressed and register 0 = 1, so ticking the `0xF00A`
program advances the program counter from 512 to 516. -/
theorem claim_C2_amended_witness :
    Chip.tick waitKeyPressedMachine = .ok { waitKeyPressedMachine with
      dt := waitKeyPressedMachine.dt - 1
      st := waitKeyPressedMachine.st - 1
      pc := if waitKeyPressedMachine.v.getD (0 : Fin 16).val 0 < 16 ∧
              waitKeyPressedMachine.keypad.getD
                (waitKeyPressedMachine.v.getD (0 : Fin 16).val 0) false = true
            then waitKeyPressedMachine.pc + 4 else waitKeyPressedMachine.pc + 2 } :=
  claim_C2_amended waitKeyPressedMachine 0 (by decide)
    (by simp [waitKeyPressedMachine, waitKeyMachine, length_writeRange, (new_lengths 0).1])
    (by decide) (by decide) (by decide)

/-- C9.  Stack discipline, confirmed.  From any machine with an empty stack
(and the 16-slot stack array), 16 nested calls `0x2nnn` all succeed: slot 0
holds the original program counter pushed by the first call, the later
slots hold `nnn` (each later call pushes the program counter value `nnn`
set by the previous call), the stack pointer reaches 16, and the program
counter is `nnn`.  The 17th call fails with `StackOverflow`.  Executing
return `0x00EE` with stack pointer 0 fails with `StackUnderflow`, and with
any nonempty stack it pops one return address into the program counter,
decrementing the stack pointer. -/
theorem claim_C9 (m : Chip) (nnn : Nat) (hn : nnn < 4096)
    (hsp : m.sp = 0) (hst : m.stack.length = 16) :
    (∃ m16, Chip.execN m (0x2000 + nnn) 16 = .ok m16 ∧ m16.sp = 16 ∧ m16.pc = nnn ∧
      m16.stack.get? 0 = some m.pc ∧
      (∀ j : Fin 16, 1 ≤ j.val → m16.stack.get? j.val = some nnn)) ∧
    Chip.execN m (0x2000 + nnn) 17 = .error (.exc (.StackOverflow 16)) ∧
    Chip.execute m 0x00EE = .error (.exc (.StackUnderflow 0)) ∧
    (∀ m' : Chip, 1 ≤ m'.sp → m'.sp ≤ 16 → m'.stack.length = 16 →
      Chip.execute m' 0x00EE = .ok { m' with sp := m'.sp - 1, pc := m'.stack.getD (m'.sp - 1) 0 }) := by
  obtain ⟨mem, v, i, pc, stack, sp, dt, st, keypad, fb, rng⟩ := m
  simp only at hsp hst
  subst hsp
  have h16 := execN_calls nnn hn 16
    { mem := mem, v := v, i := i, pc := pc, stack := stack, sp := 0, dt := dt, st := st,
      keypad := keypad, fb := fb, rng := rng } (by show 0 + 16 ≤ 16; omega)
  refine ⟨⟨_, h16, rfl, by norm_num, ?_, ?_⟩, ?_, execute_ret_underflow _ rfl,
    fun m' ha hb hc => execute_ret_pop m' ha hb hc⟩
  · show (fillCalls stack 0 pc nnn 16).get? 0 = some pc
    rw [fillCalls_get? 16 stack 0 pc nnn 0 (by omega), if_pos ⟨rfl, by omega⟩]
  · intro j hj
    show (fillCalls stack 0 pc nnn 16).get? j.val = some nnn
    rw [fillCalls_get? 16 stack 0 pc nnn j.val (by omega), if_neg (by omega),
      if_pos ⟨by omega, by exact lt_of_lt_of_le j.isLt (by omega)⟩]
  · rw [execN_succ, h16, ebind_ok,
      execute_call_overflow _ _ hn (by show 0 + 16 ≥ 16; omega)]

/-- C9, witness: a fresh machine calling `0x2300` seventeen times overflows
the stack on the seventeenth call. -/
theorem claim_C9_witness :
    (Chip.new 0).sp = 0 ∧ (Chip.new 0).stack.length = 16 ∧
    Chip.execN (Chip.new 0) (0x2000 + 768) 17 = .error (.exc (.StackOverflow 16)) :=
  ⟨rfl, by decide, (claim_C9 (Chip.new 0) 768 (by decide) rfl (by decide)).2.1⟩

/-- C7, confirmed.  For every machine whose index register `i` and sprite
height `n` satisfy `i + n <= 4096`, executing draw opcode `0xDxyn` succeeds
and XORs each set bit of each of the `n` sprite bytes read from `mem[i..]`
into the framebuffer at `((V[x] + bit) % 64, (V[y] + row) % 32)` — wrapping
both axes, which covers e.g. an 8-bit-wide row drawn at x = 60 hitting
columns 60, 61, 62, 63, 0, 1, 2, 3 — and sets register 0xF to 1 exactly
when some set sprite bit lands on a pixel that was on before the draw
(i.e. some pixel transitions on-to-off; each pixel is hit at most once
since `n <= 15`).  `spriteHit` and `spriteCollision` are the spec-side
formulations of the hit and collision predicates. -/
theorem claim_C7 (c : Chip) (x y n : Fin 16)
    (hv : c.v.length = 16) (hm : c.mem.length = 4096) (hfb : c.fb.length = 2048)
    (hbound : c.i + n.val ≤ 4096) :
    ∃ c', Chip.execute c (0xD000 + 256 * x.val + 16 * y.val + n.val) = .ok c' ∧
      (∀ p, p < 2048 →
        c'.fb.getD p false =
          xor (c.fb.getD p false)
            (spriteHit c.mem c.i (c.v.getD x.val 0) (c.v.getD y.val 0) n.val p)) ∧
      c'.v.getD 15 0 =
        (if spriteCollision c.mem c.i (c.v.getD x.val 0) (c.v.getD y.val 0) n.val c.fb
         then 1 else 0) := by
  obtain ⟨hd, hx', hy', hn'⟩ := decode_Dxyn x.val y.val n.val x.isLt y.isLt n.isLt
  obtain ⟨q, hq, qlen, qpt, qfl⟩ := drawRows_char c.mem c.i
    (c.v.getD x.val 0) (c.v.getD y.val 0) (List.range n.val) c.fb false hfb
    (List.nodup_range n.val)
    (fun r hr => by have := List.mem_range.mp hr; omega)
    (fun r hr => by have := List.mem_range.mp hr; omega)
  have hexec : Chip.execute c (0xD000 + 256 * x.val + 16 * y.val + n.val) =
      .ok { c with fb := q.1, v := c.v.set 0xF (if q.2 then 1 else 0) } := by
    simp only [Chip.execute, hd, hx', hy', hn']
    norm_num
    rw [Chip.draw_sprite]
    rw [hq, ebind_ok]
  refine ⟨_, hexec, ?_, ?_⟩
  · intro p hp
    show q.1.getD p false = _
    rw [qpt p, spriteHit]
  · show (c.v.set 0xF (if q.2 then 1 else 0)).getD 15 0 = _
    rw [getD_set_self _ _ _ _ (by omega), qfl, spriteCollision]
    cases h : (List.range n.val).any fun r => (List.range 8).any fun j =>
        decide (c.mem.getD (c.i + r) 0 &&& (0x80 >>> j) ≠ 0) &&
        c.fb.getD ((c.v.getD x.val 0 + j) % DISP_WIDTH +
          ((c.v.getD y.val 0 + r) % DISP_HEIGHT) * DISP_WIDTH) false <;> simp [h]


/-- C10, confirmed.  Under the precondition `i + n <= 4096` the draw
opcode `0xDxyn` executes without error and mutates only the framebuffer
and register 0xF: memory, the index register, the program counter (at the
`execute` level — the tick's standard advance happens before dispatch),
the stack and stack pointer, both timers, the keypad, the other 15
registers, and the random source are unchanged.  The second conjunct shows
the precondition is required: with the index register at 4096 the handler's
unchecked sprite read panics, since it has no error return. -/
theorem claim_C10 (c : Chip) (x y n : Fin 16)
    (hm : c.mem.length = 4096) (hbound : c.i + n.val ≤ 4096) :
    (∃ c', Chip.execute c (0xD000 + 256 * x.val + 16 * y.val + n.val) = .ok c' ∧
      c'.mem = c.mem ∧ c'.i = c.i ∧ c'.pc = c.pc ∧ c'.stack = c.stack ∧
      c'.sp = c.sp ∧ c'.dt = c.dt ∧ c'.st = c.st ∧ c'.keypad = c.keypad ∧
      c'.rng = c.rng ∧
      (∀ r : Fin 16, r.val ≠ 15 → c'.v.getD r.val 0 = c.v.getD r.val 0)) ∧
    Chip.execute drawOobMachine 0xD001 = .error .rtPanic := by
  constructor
  · obtain ⟨hd, hx', hy', hn'⟩ := decode_Dxyn x.val y.val n.val x.isLt y.isLt n.isLt
    obtain ⟨q, hq⟩ := drawRows_ok c.mem c.i
      (c.v.getD x.val 0) (c.v.getD y.val 0) (List.range n.val) c.fb false
      (fun r hr => by have := List.mem_range.mp hr; omega)
    have hexec : Chip.execute c (0xD000 + 256 * x.val + 16 * y.val + n.val) =
        .ok { c with fb := q.1, v := c.v.set 0xF (if q.2 then 1 else 0) } := by
      simp only [Chip.execute, hd, hx', hy', hn']
      norm_num
      rw [Chip.draw_sprite]
      rw [hq, ebind_ok]
    refine ⟨_, hexec, rfl, rfl, rfl, rfl, rfl, rfl, rfl, rfl, rfl, ?_⟩
    intro r hr
    show (c.v.set 0xF (if q.2 then 1 else 0)).getD r.val 0 = c.v.getD r.val 0
    exact getD_set_ne _ _ _ _ _ (fun he => hr he.symm)
  · decide

/-- C7, witness: drawing the one-row font sprite `0xF0` (glyph 0) at
(60, 0) lights wrapped column 60 with no collision. -/
theorem claim_C7_witness :
    ∃ c', Chip.execute drawWitnessMachine
        (0xD000 + 256 * (0 : Fin 16).val + 16 * (1 : Fin 16).val + (1 : Fin 16).val) = .ok c' ∧
      c'.fb.getD 60 false = true ∧ c'.v.getD 15 0 = 0 := by
  obtain ⟨c', he, hpt, hfl⟩ := claim_C7 drawWitnessMachine 0 1 1
    (by decide) ((new_lengths 0).1) ((new_lengths 0).2.2.2.1) (by decide)
  refine ⟨c', he, ?_, ?_⟩
  · rw [hpt 60 (by omega)]
    decide
  · rw [hfl]
    decide

/-- C10, witness: the same one-row draw leaves memory and the program
counter untouched. -/
theorem claim_C10_witness :
    ∃ c', Chip.execute drawWitnessMachine
        (0xD000 + 256 * (0 : Fin 16).val + 16 * (1 : Fin 16).val + (1 : Fin 16).val) = .ok c' ∧
      c'.mem = drawWitnessMachine.mem ∧ c'.pc = drawWitnessMachine.pc := by
  obtain ⟨c', he, hmem, hi, hpc, _⟩ := (claim_C10 drawWitnessMachine 0 1 1
    ((new_lengths 0).1) (by decide)).1
  exact ⟨c', he, hmem, hpc⟩

end Chip8
